import Mathlib

/-!
Verification development for the violetear HTTP router (violetear.go).

The repository source provides the router layer: `Handle`, `checkMethod`,
`match` (here `matchRoute`, since `match` is reserved), `splitPath`, and the
version extraction performed in `ServeHTTP`.  The trie storage
(`Trie.Set`/`Trie.Get`), the dynamic-segment registry type and the `Params`
collector live in repository files that are not among the sources; those are
modelled from the specification (sections 3, 4.2 and 4.5) and are marked
`Modelled from the spec:` below.

Handlers (`http.Handler` values) are opaque to the router, so they are
modelled as an abstract reference type with distinguished values for the two
default responders (`http.NotFound` and the default 405 responder).
Compiled regular expressions are opaque to the router as well (pattern
evaluation is delegated to an external regex engine), so a compiled pattern
is modelled as an abstract predicate on strings.
-/

/-- An opaque handler reference: a registered handler, the default
NotFound responder, the default MethodNotAllowed (405) responder, or the
marker for an aborted run — the Go match indexes `path[0]` unguardedly and
panics with an index-out-of-range runtime error when the remaining-segment
list is empty at a node where that index is evaluated; `panicked` stands for
that non-returning outcome. -/
inductive HandlerRef where
  | user (id : Nat)
  | notFoundDefault
  | methodNotAllowedDefault
  | panicked
deriving Repr, DecidableEq

/-- Modelled from the spec: a handler-table entry is an ordered-list element
`(method, version, handler)` (section 3 "handler table: an ordered list of
entries"; the entry struct itself is in a source file not provided). -/
structure HandlerEntry where
  Method : String
  Version : String
  Handler : HandlerRef
deriving Repr, DecidableEq

/-- A compiled regular expression, opaque to the router: pattern evaluation
is delegated to an external regex engine (spec section 1, non-goals). -/
abbrev CompiledPattern := String → Bool

/-- Modelled from the spec: the `dynamicSet` registry maps a dynamic segment
name to a compiled pattern; last write wins (spec section 3, the
implementation file is not among the sources).  Modelled as an association
list where the most recent binding shadows older ones. -/
abbrev dynamicSet := List (String × CompiledPattern)

/-- Lookup in the dynamic-segment registry (read-only, total). -/
def dynamicSet.lookup? (d : dynamicSet) (name : String) : Option CompiledPattern :=
  (d.find? (fun e => e.1 == name)).map (fun e => e.2)

/-- Modelled from the spec: `Define`/`Set` overwrites any existing entry for
`name` (spec section 4.1). -/
def dynamicSet.set (d : dynamicSet) (name : String) (rx : CompiledPattern) : dynamicSet :=
  (name, rx) :: d

/-- Modelled from the spec: `Params` is an ordered, append-only sequence of
`(name, value)` pairs (spec sections 3 and 4.5; the params implementation
file is not among the sources). -/
abbrev Params := List (String × String)

/-- Modelled from the spec: `Add` appends a pair and returns a new collector
value (functional-update semantics, spec section 4.5). -/
def Params.Add (p : Params) (name value : String) : Params :=
  p ++ [(name, value)]

/-- Go `strings.HasPrefix`, at the character level (so that it evaluates by
kernel reduction). -/
def strStarts (s pre : String) : Bool :=
  pre.toList.isPrefixOf s.toList

/-- Go `strings.TrimSpace`, at the character level: drop leading and
trailing whitespace. -/
def trimSpace (s : String) : String :=
  String.mk (((s.toList.dropWhile fun c => c.isWhitespace).reverse.dropWhile
    fun c => c.isWhitespace).reverse)

/-- Go `strings.Split(s, ",")`, at the character level: split at every ','
keeping empty fields; the current field is accumulated in reverse. -/
def splitCommaAux : List Char → List Char → List String
  | cur, [] => [String.mk cur.reverse]
  | cur, c :: t =>
    if c = ',' then String.mk cur.reverse :: splitCommaAux [] t
    else splitCommaAux (c :: cur) t

/-- Go `strings.Split(s, ",")`. -/
def splitComma (s : String) : List String :=
  splitCommaAux [] s.toList

/-- The routing trie: one node per path segment, child list in insertion
order, handler table as an ordered entry list, derived flags for "has a
dynamic child" / "has a catch-all child" (spec section 3; field names follow
the Go code's uses `node.path`, `node.Handler`, `node.HasRegex`,
`node.HasCatchall`, `node.Node`). -/
inductive Trie where
  | mk : String → List HandlerEntry → Bool → Bool → List Trie → Trie

/-- The node's own path segment token. -/
def Trie.path : Trie → String
  | .mk p _ _ _ _ => p

/-- The node's handler table (ordered entry list). -/
def Trie.Handler : Trie → List HandlerEntry
  | .mk _ h _ _ _ => h

/-- Derived flag: this node has a dynamic (":"-prefixed) child. -/
def Trie.HasRegex : Trie → Bool
  | .mk _ _ r _ _ => r

/-- Derived flag: this node has a catch-all ("*") child. -/
def Trie.HasCatchall : Trie → Bool
  | .mk _ _ _ c _ => c

/-- The node's children, in insertion order. -/
def Trie.Node : Trie → List Trie
  | .mk _ _ _ _ n => n

/-- A freshly created node for segment token `key`: no handlers, no
children, flags cleared. -/
def Trie.freshNode (key : String) : Trie :=
  .mk key [] false false []

/-- Modelled from the spec: inserting/overwriting the `(method, version)`
handler entry in a node's handler table — "Handler-table entries are unique
per (method, version) pair; re-registering the same pair overwrites the
previous handler" (spec section 3). -/
def upsertEntry (es : List HandlerEntry) (m ver : String) (h : HandlerRef) : List HandlerEntry :=
  if es.any (fun e => e.Method == m && e.Version == ver) then
    es.map (fun e => if e.Method == m && e.Version == ver then ⟨m, ver, h⟩ else e)
  else
    es ++ [⟨m, ver, h⟩]

/-- Replace the (unique) child whose token is `key`, or append a new child
at the end of the list (insertion order preserved, spec section 3). -/
def replaceChild (ns : List Trie) (key : String) (c : Trie) : List Trie :=
  if ns.any (fun n => n.path == key) then
    ns.map (fun n => if n.path == key then c else n)
  else
    ns ++ [c]

/-- Modelled from the spec: `Trie.Insert` (`Set` in the Go call sites) — the
trie implementation file is not among the sources.  "Descends the tree,
creating a node per segment if absent (reusing existing nodes on shared
prefixes). At the final node, for each method token in methodList inserts or
overwrites the (method, version) handler entry. Updates
hasDynamicChild/hasCatchallChild on the parent of any newly created
dynamic/catch-all node." (spec section 4.2).  The methods argument is a CSV
string (spec section 6). An empty segment list is rejected as an error. -/
def Trie.Set (t : Trie) (path : List String) (handler : HandlerRef) (methods version : String) :
    Except String Trie :=
  match path with
  | [] => Except.error "path cannot be empty"
  | [key] =>
    let child := (t.Node.find? (fun n => n.path == key)).getD (Trie.freshNode key)
    let c := Trie.mk child.path
      ((splitComma methods).foldl (fun es m => upsertEntry es m version handler) child.Handler)
      child.HasRegex child.HasCatchall child.Node
    Except.ok (Trie.mk t.path t.Handler
      (t.HasRegex || strStarts key ":")
      (t.HasCatchall || (key == "*"))
      (replaceChild t.Node key c))
  | key :: r0 :: rs =>
    let child := (t.Node.find? (fun n => n.path == key)).getD (Trie.freshNode key)
    match Trie.Set child (r0 :: rs) handler methods version with
    | Except.error e => Except.error e
    | Except.ok c =>
      Except.ok (Trie.mk t.path t.Handler
        (t.HasRegex || strStarts key ":")
        (t.HasCatchall || (key == "*"))
        (replaceChild t.Node key c))

/-- Modelled from the spec: `Trie.Resolve` (`Get` in the Go call sites) —
the trie implementation file is not among the sources.  "Descends following
literal-token matches only, stopping at the deepest node reachable by exact
equality; reports whether the full segment sequence was consumed at a node
carrying handler entries." (spec section 4.2).  The returned triple is
`(node, remainingSegments, isExactLeaf)`.  The Go call sites pass the
request version along; the spec's `Resolve(segments)` does not consult it
during descent, so the parameter is carried but unused. -/
def Trie.Get (t : Trie) (path : List String) (version : String) : Trie × List String × Bool :=
  match path with
  | [] => (t, [], !t.Handler.isEmpty)
  | [key] =>
    match t.Node.find? (fun n => n.path == key) with
    | some child => (child, [], !child.Handler.isEmpty)
    | none => (t, [key], false)
  | key :: r0 :: rs =>
    match t.Node.find? (fun n => n.path == key) with
    | some child => child.Get (r0 :: rs) version
    | none => (t, key :: r0 :: rs, false)

/-- The router state used by the matching core (violetear.go `Router`).
The logging, panic-recovery and request-id fields are I/O plumbing outside
the matching core (spec section 1) and are omitted. -/
structure Router where
  dynamicRoutes : dynamicSet
  routes : Trie
  NotFoundHandler : Option HandlerRef
  NotAllowedHandler : Option HandlerRef

/-- violetear.go `MethodNotAllowed`: the default 405 responder. -/
def Router.MethodNotAllowed (_ : Router) : HandlerRef :=
  HandlerRef.methodNotAllowedDefault

/-- The test `v.dynamicRoutes[n.path].MatchString(seg)` from violetear.go
line 179-180: look the child's token up in the registry and run the compiled
pattern on the segment.  (In Go a missing key would yield a nil regexp and
panic; `Handle` guarantees every stored ":"-token is registered, so the
`none` branch is unreachable from the public interface and is modelled as a
failed match.) -/
def Router.rxMatch (v : Router) (name seg : String) : Bool :=
  match dynamicSet.lookup? v.dynamicRoutes name with
  | some rx => rx seg
  | none => false

/-- violetear.go `checkMethod` (lines 156-169): scan the node's handler
entries in order; the first entry whose method is the sentinel "ALL" or
equals the request method wins; otherwise the configured NotAllowedHandler,
else the default 405 responder. -/
def Router.checkMethod (v : Router) (node : Trie) (method : String) : HandlerRef :=
  match node.Handler.find? (fun h => h.Method == "ALL" || h.Method == method) with
  | some h => h.Handler
  | none =>
    match v.NotAllowedHandler with
    | some h => h
    | none => v.MethodNotAllowed

/-- violetear.go `match` lines 204-208: the NotFound outcome — the
configured NotFoundHandler if set, else the default NotFound responder,
together with the params accumulated so far. -/
def Router.notFoundResult (v : Router) (params : Params) : HandlerRef × Params :=
  match v.NotFoundHandler with
  | some nf => (nf, params)
  | none => (HandlerRef.notFoundDefault, params)

/-- violetear.go `match` lines 195-203: the catch-all branch — find the "*"
child, bind the single segment `p0` under key "*", and resolve the handler
by method on that child; if the flag was set but no "*" child exists, fall
through to NotFound with params unchanged. -/
def Router.catchallResult (v : Router) (node : Trie) (p0 : String) (params : Params)
    (method : String) : HandlerRef × Params :=
  match node.Node.find? (fun n => n.path == "*") with
  | some n => (v.checkMethod n method, params.Add "*" p0)
  | none => v.notFoundResult params

/-- violetear.go `match` with an empty remaining-segment list (and the
leaf-with-handlers check already failed): the Go code indexes `path[0]`
unguardedly, so at a node with a ":"-prefixed child the dynamic loop
evaluates `rx.MatchString(path[0])` (line 180) and panics, and otherwise,
under the catch-all flag with a "*" child, `params.Add("*", path[0])`
(line 199) panics; both aborted runs are modelled by the distinguished
`HandlerRef.panicked` marker.  Only when neither indexing point is reached
does the code fall through to NotFound. -/
def Router.matchEmptyPath (v : Router) (node : Trie) (params : Params) : HandlerRef × Params :=
  if node.HasRegex = true then
    if node.Node.any (fun n => strStarts n.path ":") then (HandlerRef.panicked, params)
    else if node.HasCatchall = true then
      if node.Node.any (fun n => n.path == "*") then (HandlerRef.panicked, params)
      else v.notFoundResult params
    else v.notFoundResult params
  else if node.HasCatchall = true then
    if node.Node.any (fun n => n.path == "*") then (HandlerRef.panicked, params)
    else v.notFoundResult params
  else v.notFoundResult params

/-- violetear.go `match` (lines 172-209; named `matchRoute` because `match`
is reserved in Lean).  Control flow translated clause by clause:
leaf-with-handlers check first; else, on a node with a dynamic child, scan
the children in insertion order for the first ":"-prefixed child whose
pattern matches the first remaining segment, bind it, replace the segment by
the child's token, re-resolve with `Get` and recurse; else (or when no
dynamic child matched) take the catch-all branch when flagged; else
NotFound.  An empty remainder is handled by `matchEmptyPath`: the Go code
indexes `path[0]` there and panics at any node where that index is
evaluated. -/
def Router.matchRoute (v : Router) (node : Trie) (path : List String) (leaf : Bool)
    (params : Params) (method version : String) : HandlerRef × Params :=
  if (!node.Handler.isEmpty && leaf) = true then
    (v.checkMethod node method, params)
  else
    match path with
    | [] => v.matchEmptyPath node params
    | p0 :: rest =>
      if node.HasRegex = true then
        match hfind : node.Node.find? (fun n => strStarts n.path ":" && v.rxMatch n.path p0) with
        | some n =>
          v.matchRoute (node.Get (n.path :: rest) version).1
            ((node.Get (n.path :: rest) version).2).1
            ((node.Get (n.path :: rest) version).2).2
            (params.Add n.path p0) method version
        | none =>
          if node.HasCatchall = true then v.catchallResult node p0 params method
          else v.notFoundResult params
      else
        if node.HasCatchall = true then v.catchallResult node p0 params method
        else v.notFoundResult params
termination_by path.length
decreasing_by
  have key : ∀ (p : List String) (t : Trie), ((t.Get p version).2.1).length ≤ p.length := by
    intro p
    induction p with
    | nil => intro t; simp [Trie.Get]
    | cons k r ih =>
      intro t
      cases r with
      | nil =>
        cases hf : t.Node.find? (fun n => n.path == k) with
        | none => simp [Trie.Get, hf]
        | some child => simp [Trie.Get, hf]
      | cons a b =>
        cases hf : t.Node.find? (fun n => n.path == k) with
        | none => simp [Trie.Get, hf]
        | some child =>
          simp only [Trie.Get, hf]
          exact Nat.le_succ_of_le (ih child)
  have key2 : ∀ (k : String) (rs : List String) (t : Trie),
      (t.Node.find? (fun c => c.path == k)).isSome = true →
      ((t.Get (k :: rs) version).2.1).length ≤ rs.length := by
    intro k rs t hs
    obtain ⟨c, hc⟩ := Option.isSome_iff_exists.mp hs
    cases rs with
    | nil => simp [Trie.Get, hc]
    | cons a b =>
      simp only [Trie.Get, hc]
      exact key (a :: b) c
  have hmem : n ∈ node.Node := List.mem_of_find?_eq_some hfind
  have hs : (node.Node.find? (fun c => c.path == n.path)).isSome = true :=
    List.find?_isSome.mpr ⟨n, hmem, by simp⟩
  exact Nat.lt_of_le_of_lt (key2 _ _ _ hs) (by simp only [List.length_cons]; omega)

/-- violetear.go `splitPath` helper: the scan performed by
`strings.FieldsFunc(p, c == '/')` — maximal runs of non-'/' characters, the
current run accumulated in reverse in `cur`. -/
def fieldsSlashAux : List Char → List Char → List (List Char)
  | cur, [] => if cur.isEmpty then [] else [cur.reverse]
  | cur, c :: t =>
    if c = '/' then
      if cur.isEmpty then fieldsSlashAux [] t else cur.reverse :: fieldsSlashAux [] t
    else
      fieldsSlashAux (c :: cur) t

/-- violetear.go `splitPath` (lines 269-278): split on '/' keeping only
non-empty fields; an empty field list (root) yields the single token "/". -/
def Router.splitPath (_ : Router) (p : String) : List String :=
  let pathParts := (fieldsSlashAux [] p.toList).map (fun f => String.mk f)
  if pathParts.isEmpty then ["/"] else pathParts

/-- violetear.go `Handle` lines 104-107: split the registration path at the
first '#'; the part before it is the path, the part after it the version
(no '#' leaves the path unchanged and the version empty). -/
def splitHash : List Char → List Char × List Char
  | [] => ([], [])
  | c :: t =>
    if c = '#' then ([], t)
    else
      let r := splitHash t
      (c :: r.1, r.2)

/-- violetear.go `Handle` lines 119-123: the methods string defaults to the
sentinel "ALL" when no methods are given or the first methods string is
empty or only whitespace. -/
def handleMethods (httpMethods : List String) : String :=
  match httpMethods with
  | [] => "ALL"
  | m :: _ => if 0 < (trimSpace m).length then m else "ALL"

/-- violetear.go `Handle` line 114: the error message naming the unknown
dynamic segment. -/
def handleErrMsg (p : String) : String :=
  "[" ++ p ++ "] not found, need to add it using AddRegex(" ++ p ++ ", your regex)"

/-- violetear.go `Handle` (lines 102-133): strip the '#'-version suffix,
split the path, reject (before touching the trie) the first ":"-prefixed
segment missing from the dynamic-segment registry, else insert into the
trie.  The Go method mutates the receiver and returns only an error; here
the (possibly updated) router is returned alongside the optional error, so
the pre-error state is observable. -/
def Router.Handle (v : Router) (path : String) (handler : HandlerRef)
    (httpMethods : List String) : Router × Option String :=
  let hs := splitHash path.toList
  let pathParts := v.splitPath (String.mk hs.1)
  match pathParts.find? (fun p => strStarts p ":" && (dynamicSet.lookup? v.dynamicRoutes p).isNone) with
  | some p => (v, some (handleErrMsg p))
  | none =>
    match Trie.Set v.routes pathParts handler (handleMethods httpMethods) (String.mk hs.2) with
    | Except.error e => (v, some e)
    | Except.ok t => ({ v with routes := t }, none)

/-- violetear.go `AddRegex` (lines 141-143). -/
def Router.AddRegex (v : Router) (name : String) (rx : CompiledPattern) : Router :=
  { v with dynamicRoutes := dynamicSet.set v.dynamicRoutes name rx }

/-- Index of the last occurrence of `sub` in `s` (character positions), as
computed by `strings.LastIndex`; `none` when `sub` does not occur. -/
def strLastIndex : List Char → List Char → Option Nat
  | [], sub => if sub.isEmpty then some 0 else none
  | c :: t, sub =>
    match strLastIndex t sub with
    | some i => some (i + 1)
    | none => if sub.isPrefixOf (c :: t) then some 0 else none

/-- violetear.go line 57: the version prefix convention. -/
def versionHeader : String := "application/vnd."

/-- violetear.go `ServeHTTP` lines 237-243: the request version is the
substring of the Accept header following the last occurrence of
"application/vnd.", or empty when the prefix does not occur. -/
def resolveVersion (accept : String) : String :=
  match strLastIndex accept.toList versionHeader.toList with
  | some i => String.mk (accept.toList.drop (versionHeader.toList.length + i))
  | none => ""

/-- violetear.go `ServeHTTP` lines 245-249: the matching pipeline for one
request — split the URL path, resolve from the trie root, then match.  The
router component of the result is the router state after the request: the
match code (lines 172-209, 269-278) assigns no field of the receiver, so
that state is the input state. -/
def Router.MatchReq (v : Router) (urlPath method version : String) :
    (HandlerRef × Params) × Router :=
  ((v.matchRoute (v.routes.Get (v.splitPath urlPath) version).1
      ((v.routes.Get (v.splitPath urlPath) version).2).1
      ((v.routes.Get (v.splitPath urlPath) version).2).2
      [] method version), v)

/-- Claim-side reading for claim C8 (spec words "the ordered sequence of
non-empty tokens obtained by splitting at '/'"): plain splitting at '/',
keeping empty fields; the claim's token sequence is this list with empty
fields removed. -/
def splitAtSlash : List Char → List (List Char)
  | [] => [[]]
  | c :: t =>
    if c = '/' then [] :: splitAtSlash t
    else
      match splitAtSlash t with
      | [] => [[c]]
      | f :: fs => (c :: f) :: fs

/-- Example compiled pattern: matches exactly "42". -/
def patEq42 : CompiledPattern := fun s => s == "42"

/-- Example leaf node for the dynamic segment ":id". -/
def exLeafId : Trie := .mk ":id" [⟨"ALL", "", HandlerRef.user 1⟩] false false []

/-- Example catch-all child node. -/
def exStar : Trie := .mk "*" [⟨"GET", "", HandlerRef.user 2⟩] false false []

/-- Example node with a dynamic child. -/
def exNodeDyn : Trie := .mk "a" [] true false [exLeafId]

/-- Example node with a catch-all child. -/
def exNodeStar : Trie := .mk "b" [] false true [exStar]

/-- Example leaf node carrying method-specific entries. -/
def exNodeMethods : Trie :=
  .mk "m" [⟨"GET", "", HandlerRef.user 3⟩, ⟨"POST", "", HandlerRef.user 4⟩] false false []

/-- Example router over the example nodes. -/
def exRouter : Router :=
  { dynamicRoutes := [(":id", patEq42)]
  , routes := .mk "/" [] false false [exNodeDyn, exNodeStar, exNodeMethods]
  , NotFoundHandler := none
  , NotAllowedHandler := none }

/-- Leaf node of the route /a/:id used to exhibit the empty-remainder panic. -/
def bugLeafId : Trie := Trie.mk ":id" [⟨"ALL", "", HandlerRef.user 8⟩] false false []

/-- The node "a" of the route /a/:id: no handlers of its own, one dynamic
child. -/
def bugNodeA : Trie := Trie.mk "a" [] true false [bugLeafId]

/-- A router with only the route /a/:id registered (":id" present in the
dynamic registry). -/
def bugRouter : Router :=
  { dynamicRoutes := [(":id", patEq42)]
  , routes := Trie.mk "" [] false false [bugNodeA]
  , NotFoundHandler := none
  , NotAllowedHandler := none }

/-! Helper lemmas -/

theorem find_first {α : Type} (p : α → Bool) (pre post : List α) (x : α)
    (hpre : ∀ y ∈ pre, p y = false) (hx : p x = true) :
    (pre ++ x :: post).find? p = some x := by
  induction pre with
  | nil => simp [List.find?_cons, hx]
  | cons a t ih =>
    have ha : p a = false := hpre a (by simp)
    simp only [List.cons_append, List.find?_cons, ha]
    exact ih (fun y hy => hpre y (by simp [hy]))

/-- Unfolding of `matchRoute` at a leaf carrying handler entries
(violetear.go line 174-175). -/
theorem matchRoute_leaf (v : Router) (node : Trie) (path : List String) (leaf : Bool)
    (params : Params) (method version : String)
    (h1 : (!node.Handler.isEmpty && leaf) = true) :
    v.matchRoute node path leaf params method version = (v.checkMethod node method, params) := by
  rw [Router.matchRoute.eq_def]
  simp [h1]

/-- Unfolding of `matchRoute` at the committed dynamic-child step
(violetear.go lines 176-187). -/
theorem matchRoute_dyn_step (v : Router) (node : Trie) (p0 : String) (rest : List String)
    (leaf : Bool) (params : Params) (method version : String) (n : Trie)
    (h1 : (!node.Handler.isEmpty && leaf) = false)
    (hreg : node.HasRegex = true)
    (hfind : node.Node.find? (fun m => strStarts m.path ":" && v.rxMatch m.path p0) = some n) :
    v.matchRoute node (p0 :: rest) leaf params method version =
      v.matchRoute (node.Get (n.path :: rest) version).1
        ((node.Get (n.path :: rest) version).2).1
        ((node.Get (n.path :: rest) version).2).2
        (params.Add n.path p0) method version := by
  conv_lhs => rw [Router.matchRoute.eq_def]
  simp only [h1, Bool.false_eq_true, if_false, hreg, if_pos]
  split
  · rename_i n' heq
    rw [hfind] at heq
    injection heq with h
    subst h
    rfl
  · rename_i heq
    rw [hfind] at heq
    exact absurd heq (by simp)

/-- Unfolding of `matchRoute` at the catch-all branch
(violetear.go lines 189-203). -/
theorem matchRoute_catchall_step (v : Router) (node : Trie) (p0 : String) (rest : List String)
    (leaf : Bool) (params : Params) (method version : String) (n : Trie)
    (h1 : (!node.Handler.isEmpty && leaf) = false)
    (hcat : node.HasCatchall = true)
    (hdyn : node.HasRegex = true →
      node.Node.find? (fun m => strStarts m.path ":" && v.rxMatch m.path p0) = none)
    (hstar : node.Node.find? (fun m => m.path == "*") = some n) :
    v.matchRoute node (p0 :: rest) leaf params method version =
      (v.checkMethod n method, params.Add "*" p0) := by
  conv_lhs => rw [Router.matchRoute.eq_def]
  simp only [h1, Bool.false_eq_true, if_false]
  by_cases hreg : node.HasRegex = true
  · simp only [hreg, if_pos]
    split
    · rename_i n' heq
      rw [hdyn hreg] at heq
      exact absurd heq (by simp)
    · rename_i heq
      simp only [hcat, if_pos, Router.catchallResult, hstar]
  · simp only [if_neg hreg, hcat, if_pos, Router.catchallResult, hstar]

/-- Unfolding of `matchRoute` at the NotFound outcome
(violetear.go lines 204-208). -/
theorem matchRoute_notfound (v : Router) (node : Trie) (p0 : String) (rest : List String)
    (leaf : Bool) (params : Params) (method version : String)
    (h1 : (!node.Handler.isEmpty && leaf) = false)
    (hdyn : node.HasRegex = true →
      node.Node.find? (fun m => strStarts m.path ":" && v.rxMatch m.path p0) = none)
    (hstar : node.HasCatchall = true → node.Node.find? (fun m => m.path == "*") = none) :
    v.matchRoute node (p0 :: rest) leaf params method version = v.notFoundResult params := by
  conv_lhs => rw [Router.matchRoute.eq_def]
  simp only [h1, Bool.false_eq_true, if_false]
  by_cases hreg : node.HasRegex = true
  · simp only [hreg, if_pos]
    split
    · rename_i n' heq
      rw [hdyn hreg] at heq
      exact absurd heq (by simp)
    · rename_i heq
      by_cases hcat : node.HasCatchall = true
      · simp only [hcat, if_pos, Router.catchallResult, hstar hcat]
      · simp only [if_neg hcat]
  · by_cases hcat : node.HasCatchall = true
    · simp only [if_neg hreg, hcat, if_pos, Router.catchallResult, hstar hcat]
    · simp only [if_neg hreg, if_neg hcat]

/-! Claims C1-C4 -/

/-- Claim C1: during matching, when the current node has a dynamic child,
the dynamic children (tokens beginning with ":") are tested in list
(insertion) order against the first remaining segment; the first child whose
compiled pattern matches is committed: the pair (childToken, originalSegment)
is appended to Params, the segment is replaced by the child's token, and
matching recurses into that child's subtree (via `Get`), the overall result
being exactly the result of that recursion — so no other dynamic sibling is
tried afterwards, even if the deeper match fails. -/
theorem C1_dynamic_first_match_commits (v : Router) (node : Trie) (p0 : String)
    (rest : List String) (leaf : Bool) (params : Params) (method version : String)
    (pre post : List Trie) (n : Trie)
    (h1 : (!node.Handler.isEmpty && leaf) = false)
    (hreg : node.HasRegex = true)
    (hnodes : node.Node = pre ++ n :: post)
    (hpre : ∀ m ∈ pre, (strStarts m.path ":" && v.rxMatch m.path p0) = false)
    (hn1 : strStarts n.path ":" = true)
    (hn2 : v.rxMatch n.path p0 = true) :
    v.matchRoute node (p0 :: rest) leaf params method version =
      v.matchRoute (node.Get (n.path :: rest) version).1
        ((node.Get (n.path :: rest) version).2).1
        ((node.Get (n.path :: rest) version).2).2
        (params.Add n.path p0) method version := by
  apply matchRoute_dyn_step v node p0 rest leaf params method version n h1 hreg
  rw [hnodes]
  exact find_first _ pre post n hpre (by rw [hn1, hn2]; rfl)

/-- Witness for C1: on the example router, the dynamic child ":id" (first
and only dynamic sibling) matches segment "42" and the match commits to it. -/
theorem C1_dynamic_first_match_commits_witness :
    exRouter.matchRoute exNodeDyn ["42"] false [] "GET" "" =
      exRouter.matchRoute (exNodeDyn.Get [":id"] "").1
        ((exNodeDyn.Get [":id"] "").2).1 ((exNodeDyn.Get [":id"] "").2).2
        (Params.Add [] ":id" "42") "GET" "" :=
  C1_dynamic_first_match_commits exRouter exNodeDyn "42" [] false [] "GET" ""
    [] [] exLeafId (by decide) (by decide) (by rfl) (by simp) (by decide) (by decide)

/-- Claim C2: when the matcher takes the catch-all branch, exactly the one
pair ("*", remainingSegments[0]) is appended to Params — the catch-all binds
exactly one residual segment, never the whole remaining suffix — and the
handler is resolved by method on the catch-all child node; the branch is
reachable only when the exact-leaf check fails and no dynamic child matched
(hypotheses h1 and hdyn). -/
theorem C2_catchall_binds_one_segment (v : Router) (node : Trie) (p0 : String)
    (rest : List String) (leaf : Bool) (params : Params) (method version : String) (n : Trie)
    (h1 : (!node.Handler.isEmpty && leaf) = false)
    (hcat : node.HasCatchall = true)
    (hdyn : node.HasRegex = true →
      node.Node.find? (fun m => strStarts m.path ":" && v.rxMatch m.path p0) = none)
    (hstar : node.Node.find? (fun m => m.path == "*") = some n) :
    v.matchRoute node (p0 :: rest) leaf params method version =
      (v.checkMethod n method, params ++ [("*", p0)]) :=
  matchRoute_catchall_step v node p0 rest leaf params method version n h1 hcat hdyn hstar

/-- Witness for C2: on the example router the catch-all child binds exactly
the single segment "zzz" even though a further segment "more" remains. -/
theorem C2_catchall_binds_one_segment_witness :
    exRouter.matchRoute exNodeStar ["zzz", "more"] false [] "GET" "" =
      (exRouter.checkMethod exStar "GET", [("*", "zzz")]) :=
  C2_catchall_binds_one_segment exRouter exNodeStar "zzz" ["more"] false [] "GET" "" exStar
    (by decide) (by decide) (fun h => absurd h (by decide)) (by rfl)

/-- Claim C3 (refuted by the code; the spec is the intent): with only the
route /a/:id registered, the request path /a reaches node "a" with an empty
remaining-segment list, a non-leaf result and a dynamic child; the Go match
then evaluates `path[0]` on the empty slice (line 180) and panics with an
index-out-of-range runtime error — modelled by the `HandlerRef.panicked`
marker — instead of returning the NotFound or MethodNotAllowed handler as an
ordinary value, as the claim states.  The conjuncts retrace the pipeline:
the registration builds the trie, splitPath and Get produce the empty
remainder at node "a", and matchRoute aborts there. -/
theorem C3_match_panics_on_empty_remainder :
    Trie.Set (Trie.mk "" [] false false []) ["a", ":id"] (HandlerRef.user 8) "ALL" "" =
      Except.ok bugRouter.routes ∧
    bugRouter.splitPath "/a" = ["a"] ∧
    bugRouter.routes.Get ["a"] "" = (bugNodeA, [], false) ∧
    bugRouter.matchRoute bugNodeA [] false [] "GET" "" = (HandlerRef.panicked, []) := by
  refine ⟨rfl, rfl, rfl, ?_⟩
  rw [Router.matchRoute.eq_def]
  rfl

/-- Claim C4: method resolution scans the node's handler-entry list in
insertion order and returns the handler of the first entry whose method is
the sentinel "ALL" or equals the requested method; no later entry is
returned when an earlier entry satisfies either condition. -/
theorem C4_checkMethod_first_entry_wins (v : Router) (node : Trie) (method : String)
    (pre post : List HandlerEntry) (e : HandlerEntry)
    (hH : node.Handler = pre ++ e :: post)
    (hpre : ∀ x ∈ pre, (x.Method == "ALL" || x.Method == method) = false)
    (he : (e.Method == "ALL" || e.Method == method) = true) :
    v.checkMethod node method = e.Handler := by
  simp only [Router.checkMethod, hH, find_first _ pre post e hpre he]

/-- Witness for C4: on a node with entries [GET -> user 3, POST -> user 4],
the POST request resolves to user 4, the first (and only) matching entry. -/
theorem C4_checkMethod_first_entry_wins_witness :
    exRouter.checkMethod exNodeMethods "POST" = HandlerRef.user 4 :=
  C4_checkMethod_first_entry_wins exRouter exNodeMethods "POST"
    [⟨"GET", "", HandlerRef.user 3⟩] [] ⟨"POST", "", HandlerRef.user 4⟩
    (by rfl) (by decide) (by decide)

/-! Claim C8 -/

theorem splitAtSlash_ne_nil (s : List Char) : splitAtSlash s ≠ [] := by
  induction s with
  | nil => simp [splitAtSlash]
  | cons c t ih =>
    simp only [splitAtSlash]
    by_cases hc : c = '/'
    · simp [hc]
    · simp only [if_neg hc]
      cases h : splitAtSlash t with
      | nil => simp
      | cons f fs => simp

theorem fieldsSlashAux_eq (s : List Char) : ∀ (cur : List Char),
    fieldsSlashAux cur s =
      ((cur.reverse ++ (splitAtSlash s).headD []) :: (splitAtSlash s).tail).filter
        (fun f => !f.isEmpty) := by
  induction s with
  | nil =>
    intro cur
    rcases eq_or_ne cur [] with h | h
    · subst h; simp [fieldsSlashAux, splitAtSlash]
    · obtain ⟨a, as, rfl⟩ := List.exists_cons_of_ne_nil h
      simp [fieldsSlashAux, splitAtSlash, List.filter_cons,
        List.isEmpty_iff, List.reverse_eq_nil_iff]
  | cons c t ih =>
    intro cur
    by_cases hc : c = '/'
    · subst hc
      simp only [fieldsSlashAux, splitAtSlash, if_pos rfl]
      simp only [ih []]
      cases hss : splitAtSlash t with
      | nil => exact absurd hss (splitAtSlash_ne_nil t)
      | cons f fs =>
        rcases eq_or_ne cur [] with h | h
        · subst h; simp [hss, List.filter_cons]
        · obtain ⟨a, as, rfl⟩ := List.exists_cons_of_ne_nil h
          simp [hss, List.filter_cons, List.isEmpty_iff, List.reverse_eq_nil_iff]
    · simp only [fieldsSlashAux, splitAtSlash, if_neg hc]
      simp only [ih (c :: cur)]
      cases hss : splitAtSlash t with
      | nil => exact absurd hss (splitAtSlash_ne_nil t)
      | cons f fs => simp [hss, List.append_assoc]

/-- Claim C8: for every input string, splitPath returns the ordered sequence
of non-empty tokens obtained by splitting at '/' characters; when that
sequence is empty (the input is empty or consists only of slashes),
splitPath returns the single-element sequence ["/"]. -/
theorem C8_splitPath_tokens (v : Router) (s : String) :
    v.splitPath s =
      (let toks := ((splitAtSlash s.toList).filter (fun f => !f.isEmpty)).map
        (fun f => String.mk f)
       if toks.isEmpty then ["/"] else toks) := by
  simp only [Router.splitPath]
  rw [fieldsSlashAux_eq]
  cases hss : splitAtSlash s.toList with
  | nil => exact absurd hss (splitAtSlash_ne_nil _)
  | cons f fs => simp

/-! Claim C7 -/

theorem bool_eq_false {b : Bool} (h : ¬(b = true)) : b = false := by
  cases b with
  | true => exact absurd rfl h
  | false => rfl

theorem isPrefixOf_nil_false (sub : List Char) (h : sub ≠ []) :
    sub.isPrefixOf ([] : List Char) = false := by
  cases sub with
  | nil => exact absurd rfl h
  | cons a as => rfl

theorem strLastIndex_none_iff (sub : List Char) (hsub : sub ≠ []) (s : List Char) :
    strLastIndex s sub = none ↔ ∀ j, sub.isPrefixOf (s.drop j) = false := by
  induction s with
  | nil =>
    simp only [strLastIndex]
    constructor
    · intro _ j
      rw [List.drop_nil]
      exact isPrefixOf_nil_false sub hsub
    · intro _
      simp [List.isEmpty_iff, hsub]
  | cons c t ih =>
    constructor
    · intro h j
      cases hS : strLastIndex t sub with
      | some i => simp [strLastIndex, hS] at h
      | none =>
        simp only [strLastIndex, hS] at h
        by_cases hp : sub.isPrefixOf (c :: t) = true
        · simp [hp] at h
        · cases j with
          | zero => simpa using bool_eq_false hp
          | succ j' => simpa [List.drop_succ_cons] using (ih.mp hS) j'
    · intro hall
      cases hS : strLastIndex t sub with
      | some i =>
        have hT : ∀ j, sub.isPrefixOf (t.drop j) = false := fun j => by
          simpa [List.drop_succ_cons] using hall (j + 1)
        have hn := ih.mpr hT
        rw [hS] at hn
        exact absurd hn (by simp)
      | none =>
        have h0 := hall 0
        simp only [List.drop_zero] at h0
        simp [strLastIndex, hS, h0]

theorem strLastIndex_some_spec (sub : List Char) (hsub : sub ≠ []) (s : List Char) :
    ∀ i, strLastIndex s sub = some i →
      i ≤ s.length ∧ sub.isPrefixOf (s.drop i) = true ∧
        ∀ j, sub.isPrefixOf (s.drop j) = true → j ≤ i := by
  induction s with
  | nil =>
    intro i h
    simp only [strLastIndex] at h
    rw [if_neg (by simp [List.isEmpty_iff, hsub])] at h
    exact absurd h (by simp)
  | cons c t ih =>
    intro i h
    cases hS : strLastIndex t sub with
    | some i' =>
      simp only [strLastIndex, hS] at h
      injection h with h
      subst h
      obtain ⟨hle, hpre, hmax⟩ := ih i' hS
      refine ⟨by simpa using Nat.succ_le_succ hle,
        by simpa [List.drop_succ_cons] using hpre, ?_⟩
      intro j hj
      cases j with
      | zero => exact Nat.zero_le _
      | succ j' =>
        have hj' : sub.isPrefixOf (t.drop j') = true := by
          simpa [List.drop_succ_cons] using hj
        exact Nat.succ_le_succ (hmax j' hj')
    | none =>
      simp only [strLastIndex, hS] at h
      by_cases hp : sub.isPrefixOf (c :: t) = true
      · rw [if_pos hp] at h
        injection h with h
        subst h
        refine ⟨Nat.zero_le _, by simpa using hp, ?_⟩
        intro j hj
        cases j with
        | zero => exact Nat.le_refl 0
        | succ j' =>
          have hT := (strLastIndex_none_iff sub hsub t).mp hS j'
          have hj' : sub.isPrefixOf (t.drop j') = true := by
            simpa [List.drop_succ_cons] using hj
          rw [hT] at hj'
          exact absurd hj' (by simp)
      · rw [if_neg hp] at h
        exact absurd h (by simp)

/-- Claim C7: for every request, the resolved version string is derived from
the Accept header by the fixed prefix "application/vnd.": if the prefix
occurs, the version is the substring of the header following its last
occurrence (positions after the last occurrence carry no further occurrence);
if the prefix does not occur, the version is the empty string. -/
theorem C7_version_from_accept_header (accept : String) :
    ((∀ a b : List Char, accept.toList ≠ a ++ versionHeader.toList ++ b) →
      resolveVersion accept = "") ∧
    (∀ a b : List Char, accept.toList = a ++ versionHeader.toList ++ b →
      (∀ j ∈ List.range (accept.toList.length + 1),
        versionHeader.toList.isPrefixOf (accept.toList.drop j) = true → j ≤ a.length) →
      resolveVersion accept = String.mk b) := by
  have hsub : versionHeader.toList ≠ [] := by decide
  constructor
  · intro hno
    have hall : ∀ j, versionHeader.toList.isPrefixOf (accept.toList.drop j) = false := by
      intro j
      by_cases hj : accept.toList.length ≤ j
      · rw [List.drop_eq_nil_of_le hj]
        exact isPrefixOf_nil_false _ hsub
      · cases hpb : versionHeader.toList.isPrefixOf (accept.toList.drop j) with
        | false => rfl
        | true =>
          have hpref : versionHeader.toList <+: accept.toList.drop j := by
            rw [← List.isPrefixOf_iff_prefix]
            exact hpb
          obtain ⟨r, hr⟩ := hpref
          have hdec : accept.toList = accept.toList.take j ++ versionHeader.toList ++ r := by
            conv_lhs => rw [← List.take_append_drop j accept.toList, ← hr]
            rw [List.append_assoc]
          exact absurd hdec (hno _ _)
    have hnone := (strLastIndex_none_iff _ hsub accept.toList).mpr hall
    unfold resolveVersion
    rw [hnone]
  · intro a b hdecomp hmax
    have hocc : versionHeader.toList.isPrefixOf (accept.toList.drop a.length) = true := by
      rw [hdecomp, List.append_assoc, List.drop_left, List.isPrefixOf_iff_prefix]
      exact ⟨b, rfl⟩
    cases hS : strLastIndex accept.toList versionHeader.toList with
    | none =>
      have hf := (strLastIndex_none_iff _ hsub _).mp hS a.length
      rw [hf] at hocc
      exact absurd hocc (by simp)
    | some i =>
      obtain ⟨hle, hpre, hmaxi⟩ := strLastIndex_some_spec _ hsub _ i hS
      have h1 : a.length ≤ i := hmaxi a.length hocc
      have h2 : i ≤ a.length := hmax i (by simp only [List.mem_range]; omega) hpre
      have hia : i = a.length := Nat.le_antisymm h2 h1
      subst hia
      simp only [resolveVersion, hS]
      congr 1
      rw [hdecomp, Nat.add_comm,
        show a.length + versionHeader.toList.length = (a ++ versionHeader.toList).length by simp]
      exact List.drop_left _ _

/-- Witness for C7: a header without the prefix resolves to the empty
version; a header containing the prefix twice resolves to the substring
after the last occurrence. -/
theorem C7_version_from_accept_header_witness :
    resolveVersion "text/html" = "" ∧
    resolveVersion "application/vnd.application/vnd.v2" = "v2" := by
  constructor
  · refine (C7_version_from_accept_header "text/html").1 (fun a b h => ?_)
    have hl := congrArg List.length h
    rw [List.length_append, List.length_append] at hl
    have h9 : ("text/html".toList).length = 9 := rfl
    have h16 : (versionHeader.toList).length = 16 := rfl
    rw [h9, h16] at hl
    omega
  · exact (C7_version_from_accept_header "application/vnd.application/vnd.v2").2
      ("application/vnd.".toList) ("v2".toList) (by decide) (by decide)

/-! Claims C5, C6, C9, C10 -/

theorem Set_path (t : Trie) (parts : List String) (h : HandlerRef) (m ver : String) (t' : Trie)
    (hok : Trie.Set t parts h m ver = Except.ok t') : t'.path = t.path := by
  cases parts with
  | nil => simp [Trie.Set] at hok
  | cons k rest =>
    cases rest with
    | nil =>
      simp only [Trie.Set] at hok
      injection hok with hok
      subst hok
      rfl
    | cons r0 rs =>
      simp only [Trie.Set] at hok
      cases hrec : Trie.Set ((t.Node.find? (fun n => n.path == k)).getD (Trie.freshNode k))
          (r0 :: rs) h m ver with
      | error e => rw [hrec] at hok; simp at hok
      | ok c =>
        rw [hrec] at hok
        injection hok with hok
        subst hok
        rfl

theorem Set_ok (parts : List String) (hne : parts ≠ []) :
    ∀ (t : Trie) (h : HandlerRef) (m ver : String),
      ∃ t', Trie.Set t parts h m ver = Except.ok t' := by
  induction parts with
  | nil => exact absurd rfl hne
  | cons k rest ih =>
    intro t h m ver
    cases rest with
    | nil => exact ⟨_, rfl⟩
    | cons r0 rs =>
      obtain ⟨c, hc⟩ :=
        ih (by simp) ((t.Node.find? (fun n => n.path == k)).getD (Trie.freshNode k)) h m ver
      refine ⟨Trie.mk t.path t.Handler (t.HasRegex || strStarts k ":")
        (t.HasCatchall || (k == "*")) (replaceChild t.Node k c), ?_⟩
      simp only [Trie.Set, hc]

theorem Set_fresh_all (parts : List String) : ∀ (root : Trie) (h : HandlerRef) (ver : String),
    root.Node = [] → parts ≠ [] →
    ∃ t', Trie.Set root parts h "ALL" ver = Except.ok t' ∧
      ((t'.Get parts ver).1).Handler = [⟨"ALL", ver, h⟩] ∧
      ((t'.Get parts ver).2).2 = true := by
  induction parts with
  | nil => intro root h ver _ hne; exact absurd rfl hne
  | cons k rest ih =>
    intro root h ver hroot _
    have hfind : root.Node.find? (fun n => n.path == k) = none := by rw [hroot]; rfl
    cases rest with
    | nil =>
      refine ⟨Trie.mk root.path root.Handler (root.HasRegex || strStarts k ":")
        (root.HasCatchall || (k == "*")) [Trie.mk k [⟨"ALL", ver, h⟩] false false []],
        ?_, ?_, ?_⟩
      · simp only [Trie.Set, hfind, Option.getD_none]
        rw [hroot]
        rfl
      · simp [Trie.Get, List.find?_cons, Trie.path, Trie.Handler, Trie.Node]
      · simp [Trie.Get, List.find?_cons, Trie.path, Trie.Handler, Trie.Node]
    | cons r0 rs =>
      obtain ⟨c', hc', hH, hL⟩ := ih (Trie.freshNode k) h ver rfl (by simp)
      have hcp : c'.path = k := by
        rw [Set_path _ _ _ _ _ _ hc']
        rfl
      refine ⟨Trie.mk root.path root.Handler (root.HasRegex || strStarts k ":")
        (root.HasCatchall || (k == "*")) [c'], ?_, ?_, ?_⟩
      · simp only [Trie.Set, hfind, Option.getD_none]
        rw [hc', hroot]
        rfl
      · simp only [Trie.Get, Trie.Node]
        rw [show List.find? (fun n => n.path == k) [c'] = some c' from by
          simp [List.find?_cons, hcp]]
        exact hH
      · simp only [Trie.Get, Trie.Node]
        rw [show List.find? (fun n => n.path == k) [c'] = some c' from by
          simp [List.find?_cons, hcp]]
        exact hL

theorem splitPath_ne_nil (v : Router) (s : String) : v.splitPath s ≠ [] := by
  simp only [Router.splitPath]
  cases h : ((fieldsSlashAux [] s.toList).map (fun f => String.mk f)).isEmpty with
  | true => simp [h]
  | false =>
    simp only [h, Bool.false_eq_true, if_false]
    intro hc
    rw [hc] at h
    simp at h

/-- Claim C5: a route registered with no explicit methods (no method
arguments, or a first method string that is empty or only whitespace) is
stored under the sentinel method "ALL" and consequently matches every
request method during method resolution. -/
theorem C5_default_methods_ALL (hm : List String) (v : Router) (node : Trie)
    (h : HandlerRef) (ver : String) (parts : List String) (root t' : Trie) :
    ((hm = [] ∨ ∃ m rest, hm = m :: rest ∧ trimSpace m = "") → handleMethods hm = "ALL") ∧
    (root.Node = [] → parts ≠ [] → Trie.Set root parts h "ALL" ver = Except.ok t' →
      ((t'.Get parts ver).1).Handler = [⟨"ALL", ver, h⟩] ∧
      ((t'.Get parts ver).2).2 = true) ∧
    (node.Handler = [⟨"ALL", ver, h⟩] → ∀ method, v.checkMethod node method = h) := by
  refine ⟨?_, ?_, ?_⟩
  · rintro (rfl | ⟨m, rest, rfl, hm0⟩)
    · rfl
    · simp [handleMethods, hm0]
  · intro hroot hne hok
    obtain ⟨t'', hok'', hH, hL⟩ := Set_fresh_all parts root h ver hroot hne
    rw [hok] at hok''
    injection hok'' with e
    subst e
    exact ⟨hH, hL⟩
  · intro hH method
    simp [Router.checkMethod, hH, List.find?_cons]

/-- Witness for C5: a whitespace-only methods argument yields "ALL"; a fresh
registration stores the single "ALL" entry at the final node; a node with
that single entry resolves every method to the registered handler. -/
theorem C5_default_methods_ALL_witness :
    handleMethods [" "] = "ALL" ∧
    (((Trie.mk "" [] false false [Trie.mk "x" [⟨"ALL", "", HandlerRef.user 7⟩] false false []]).Get
        ["x"] "").1).Handler = [⟨"ALL", "", HandlerRef.user 7⟩] ∧
    exRouter.checkMethod (Trie.mk "x" [⟨"ALL", "", HandlerRef.user 7⟩] false false []) "DELETE" =
      HandlerRef.user 7 := by
  obtain ⟨h1, h2, h3⟩ := C5_default_methods_ALL [" "] exRouter
    (Trie.mk "x" [⟨"ALL", "", HandlerRef.user 7⟩] false false []) (HandlerRef.user 7) ""
    ["x"] (Trie.freshNode "")
    (Trie.mk "" [] false false [Trie.mk "x" [⟨"ALL", "", HandlerRef.user 7⟩] false false []])
  exact ⟨h1 (Or.inr ⟨" ", [], rfl, rfl⟩), (h2 rfl (by decide) (by rfl)).1, h3 rfl "DELETE"⟩

/-- Claim C6: Handle rejects, with an error naming the segment, any path
containing a ":"-prefixed token absent from the dynamic-segment registry;
it proceeds to the trie insertion exactly when every ":"-prefixed token is
registered. -/
theorem C6_unknown_dynamic_rejected (v : Router) (path : String) (h : HandlerRef)
    (ms : List String) :
    ((∃ q ∈ v.splitPath (String.mk (splitHash path.toList).1),
        strStarts q ":" = true ∧ dynamicSet.lookup? v.dynamicRoutes q = none) →
      ∃ p, strStarts p ":" = true ∧ dynamicSet.lookup? v.dynamicRoutes p = none ∧
        v.Handle path h ms = (v, some (handleErrMsg p))) ∧
    ((∀ p ∈ v.splitPath (String.mk (splitHash path.toList).1),
        strStarts p ":" = true → (dynamicSet.lookup? v.dynamicRoutes p).isSome) →
      ∃ t', Trie.Set v.routes (v.splitPath (String.mk (splitHash path.toList).1)) h
          (handleMethods ms) (String.mk (splitHash path.toList).2) = Except.ok t' ∧
        v.Handle path h ms = ({ v with routes := t' }, none)) := by
  constructor
  · rintro ⟨q, hqmem, hq1, hq2⟩
    have hsome : ((v.splitPath (String.mk (splitHash path.toList).1)).find?
        (fun p => strStarts p ":" && (dynamicSet.lookup? v.dynamicRoutes p).isNone)).isSome :=
      List.find?_isSome.mpr ⟨q, hqmem, by rw [hq1, hq2]; rfl⟩
    obtain ⟨p, hp⟩ := Option.isSome_iff_exists.mp hsome
    have hpp := List.find?_some hp
    rw [Bool.and_eq_true] at hpp
    obtain ⟨hp1, hp2⟩ := hpp
    refine ⟨p, hp1, Option.isNone_iff_eq_none.mp hp2, ?_⟩
    simp only [Router.Handle, hp]
  · intro hall
    have hnone : (v.splitPath (String.mk (splitHash path.toList).1)).find?
        (fun p => strStarts p ":" && (dynamicSet.lookup? v.dynamicRoutes p).isNone) = none := by
      apply List.find?_eq_none.mpr
      intro x hx hpx
      rw [Bool.and_eq_true] at hpx
      obtain ⟨h1x, h2x⟩ := hpx
      have hsx := hall x hx h1x
      rw [Option.isNone_iff_eq_none.mp h2x] at hsx
      simp at hsx
    obtain ⟨t', ht'⟩ := Set_ok (v.splitPath (String.mk (splitHash path.toList).1))
      (splitPath_ne_nil v _) v.routes h (handleMethods ms) (String.mk (splitHash path.toList).2)
    refine ⟨t', ht', ?_⟩
    simp only [Router.Handle, hnone, ht']

/-- Witness for C6: registering "/a/:user" on the example router (whose
registry only knows ":id") fails naming ":user". -/
theorem C6_unknown_dynamic_rejected_witness :
    ∃ p, strStarts p ":" = true ∧ dynamicSet.lookup? exRouter.dynamicRoutes p = none ∧
      exRouter.Handle "/a/:user" (HandlerRef.user 5) [] = (exRouter, some (handleErrMsg p)) :=
  (C6_unknown_dynamic_rejected exRouter "/a/:user" (HandlerRef.user 5) []).1
    ⟨":user", by decide, by decide, by rfl⟩

/-- Claim C10 (implicit): when Handle fails because a path segment
references an unregistered dynamic name, the error is returned before the
trie insertion is invoked, so neither the trie nor the dynamic-segment
registry is modified by the failed registration. -/
theorem C10_failed_registration_atomic (v : Router) (path : String) (h : HandlerRef)
    (ms : List String)
    (hbad : ∃ q ∈ v.splitPath (String.mk (splitHash path.toList).1),
      strStarts q ":" = true ∧ dynamicSet.lookup? v.dynamicRoutes q = none) :
    (v.Handle path h ms).1 = v ∧
    ((v.Handle path h ms).1).routes = v.routes ∧
    ((v.Handle path h ms).1).dynamicRoutes = v.dynamicRoutes ∧
    ((v.Handle path h ms).2).isSome = true := by
  obtain ⟨q, hqmem, hq1, hq2⟩ := hbad
  have hsome : ((v.splitPath (String.mk (splitHash path.toList).1)).find?
      (fun p => strStarts p ":" && (dynamicSet.lookup? v.dynamicRoutes p).isNone)).isSome :=
    List.find?_isSome.mpr ⟨q, hqmem, by rw [hq1, hq2]; rfl⟩
  obtain ⟨p, hp⟩ := Option.isSome_iff_exists.mp hsome
  simp only [Router.Handle, hp]
  simp

/-- Witness for C10: a failed registration on the example router returns the
router state unchanged together with an error. -/
theorem C10_failed_registration_atomic_witness :
    (exRouter.Handle "/b/:zzz" (HandlerRef.user 6) ["GET"]).1 = exRouter ∧
    ((exRouter.Handle "/b/:zzz" (HandlerRef.user 6) ["GET"]).1).routes = exRouter.routes ∧
    ((exRouter.Handle "/b/:zzz" (HandlerRef.user 6) ["GET"]).1).dynamicRoutes =
      exRouter.dynamicRoutes ∧
    ((exRouter.Handle "/b/:zzz" (HandlerRef.user 6) ["GET"]).2).isSome = true :=
  C10_failed_registration_atomic exRouter "/b/:zzz" (HandlerRef.user 6) ["GET"]
    ⟨":zzz", by decide, by decide, by rfl⟩

/-- Claim C9: matching the root path is deterministic and repeatable: the
root path splits to the single root token, the request pipeline leaves the
router (trie and dynamic registry) unchanged, and running the pipeline again
on the post-request state yields the same handler and Params. -/
theorem C9_root_match_repeatable (v : Router) (m ver : String) :
    v.splitPath "/" = ["/"] ∧
    (v.MatchReq "/" m ver).2 = v ∧
    ((v.MatchReq "/" m ver).2).routes = v.routes ∧
    ((v.MatchReq "/" m ver).2).dynamicRoutes = v.dynamicRoutes ∧
    (((v.MatchReq "/" m ver).2).MatchReq "/" m ver).1 = (v.MatchReq "/" m ver).1 :=
  ⟨rfl, rfl, rfl, rfl, rfl⟩
